import Mathlib

/-!
Shallow embedding of the gphotos-sync core (`LocalData.py`, `GooglePhotosSync.py`)
and verification of its specification claims.

`LocalData` keeps a relational catalog: the `SyncFiles` table is modelled as a
list of `SyncRow` values in insertion (rowid) order; SQL point lookups become
`List.find?` (first match, as `fetchone` returns the first row), `MAX`
aggregates become folds, `INSERT` appends.
-/

namespace GphotosSync

/-- One row of the `SyncFiles` table (`LocalData.SyncRow.cols_def`).
Timestamps are modelled as integers ordered chronologically, matching the
ordering of the ISO date strings stored by sqlite. -/
structure SyncRow where
  RemoteId : String
  Url : String
  Path : String
  FileName : String
  OrigFileName : String
  DuplicateNo : Int
  MediaType : Int
  FileSize : Int
  Checksum : String
  Description : String
  ModifyDate : Int
  CreateDate : Int
  SyncDate : Int
  SymLink : Int
deriving DecidableEq

/-- A row with every column at a neutral value, for building concrete rows. -/
def blankRow : SyncRow :=
  { RemoteId := "", Url := "", Path := "", FileName := "", OrigFileName := ""
    DuplicateNo := 0, MediaType := 0, FileSize := 0, Checksum := ""
    Description := "", ModifyDate := 0, CreateDate := 0, SyncDate := 0
    SymLink := 0 }

/-- The `SyncFiles` table: rows in insertion order. -/
abbrev SyncFiles := List SyncRow

/-- `SELECT ... FROM SyncFiles WHERE RemoteId = ?` followed by `fetchone`
(`LocalData.get_file_by_id` and the first query of `file_duplicate_no`). -/
def findByRemoteId (db : SyncFiles) (rid : String) : Option SyncRow :=
  db.find? (fun r => r.RemoteId == rid)

/-- `SELECT MAX(DuplicateNo) FROM SyncFiles WHERE Path = ? AND OrigFileName = ?`
(the second query of `LocalData.file_duplicate_no`). -/
def maxDuplicateNo (db : SyncFiles) (path name : String) : Option Int :=
  (db.filter (fun r => r.Path == path && r.OrigFileName == name)).foldl
    (fun acc r =>
      some (match acc with
            | none => r.DuplicateNo
            | some m => max m r.DuplicateNo))
    none

/-- `LocalData.file_duplicate_no(file_id, path, name)`: the stored DuplicateNo
of an existing record for `file_id`, else `max + 1` over the
`(path, origFileName)` group, else `0`. -/
def file_duplicate_no (db : SyncFiles) (file_id path name : String) : Int :=
  match findByRemoteId db file_id with
  | some r => r.DuplicateNo
  | none =>
      match maxDuplicateNo db path name with
      | some m => m + 1
      | none => 0

/-- `LocalData.put_file(row)`: `INSERT INTO SyncFiles ...` appends a row. -/
def put_file (db : SyncFiles) (row : SyncRow) : SyncFiles :=
  db ++ [row]

/-- The scenario of the gap-free assignment property: for each remote id in
turn, resolve its duplicate number with `file_duplicate_no` and insert the
resulting row with `put_file`; returns the assigned numbers in order together
with the final table. -/
def insertRun (path name : String) : List String → SyncFiles → List Int × SyncFiles
  | [], db => ([], db)
  | rid :: rest, db =>
      let d := file_duplicate_no db rid path name
      let row := { blankRow with RemoteId := rid, Path := path,
                                 OrigFileName := name, DuplicateNo := d }
      let (ds, db') := insertRun path name rest (put_file db row)
      (d :: ds, db')

/- ### Generic list lemmas used by several claims -/

theorem find?_append_of_none {α : Type} (p : α → Bool) (l₁ l₂ : List α)
    (h : l₁.find? p = none) : (l₁ ++ l₂).find? p = l₂.find? p := by
  induction l₁ with
  | nil => simp
  | cons a l ih =>
      rw [List.find?_cons] at h
      rw [List.cons_append, List.find?_cons]
      cases hp : p a with
      | true => simp [hp] at h
      | false =>
          simp only [hp] at h ⊢
          exact ih h

theorem find?_eq_none_iff {α : Type} (p : α → Bool) (l : List α) :
    l.find? p = none ↔ ∀ x ∈ l, p x = false := by
  induction l with
  | nil => simp
  | cons a l ih =>
      rw [List.find?_cons]
      cases hp : p a with
      | true => simp [hp]
      | false => simp [hp, ih]

/- ### C3 : idempotent duplicate numbering -/

theorem findByRemoteId_eq_of_unique (db : SyncFiles) (rid : String)
    (r : SyncRow) (hmem : r ∈ db) (hrid : r.RemoteId = rid)
    (huniq : ∀ r' ∈ db, r'.RemoteId = rid → r' = r) :
    findByRemoteId db rid = some r := by
  unfold findByRemoteId
  induction db with
  | nil => cases hmem
  | cons a l ih =>
      rw [List.find?_cons]
      cases hp : (a.RemoteId == rid) with
      | true =>
          have ha : a.RemoteId = rid := by simpa using hp
          have : a = r := huniq a (List.mem_cons_self a l) ha
          simp [this]
      | false =>
          simp only
          have hmem' : r ∈ l := by
            rcases List.mem_cons.mp hmem with h | h
            · exfalso
              have : a.RemoteId = rid := h ▸ hrid
              simp [this] at hp
            · exact h
          exact ih hmem' (fun r' hr' h' => huniq r' (List.mem_cons_of_mem a hr') h')

/-- C3: if a SyncRecord for `rid` is already present (and `RemoteId` is unique,
as the catalog invariant guarantees), `file_duplicate_no` returns that record's
stored `DuplicateNo`, for any `path` and `name` arguments and any other
records in the table. -/
theorem file_duplicate_no_idempotent (db : SyncFiles) (rid path name : String)
    (r : SyncRow) (hmem : r ∈ db) (hrid : r.RemoteId = rid)
    (huniq : ∀ r' ∈ db, r'.RemoteId = rid → r' = r) :
    file_duplicate_no db rid path name = r.DuplicateNo := by
  unfold file_duplicate_no
  rw [findByRemoteId_eq_of_unique db rid r hmem hrid huniq]

/-- C3 witness: a concrete table where the record for `"a"` has DuplicateNo 7,
and another record crowds its `(path, origFileName)` group. -/
theorem file_duplicate_no_idempotent_witness :
    file_duplicate_no
      [{ blankRow with RemoteId := "a", Path := "p", OrigFileName := "n", DuplicateNo := 7 },
       { blankRow with RemoteId := "b", Path := "p", OrigFileName := "n", DuplicateNo := 9 }]
      "a" "p" "n" = 7 :=
  file_duplicate_no_idempotent _ "a" "p" "n"
    { blankRow with RemoteId := "a", Path := "p", OrigFileName := "n", DuplicateNo := 7 }
    (by decide) (by decide) (by decide)

/- ### C4 : gap-free first assignment -/

theorem findByRemoteId_put_none (db : SyncFiles) (row : SyncRow) (rid : String)
    (h : findByRemoteId db rid = none) (hne : row.RemoteId ≠ rid) :
    findByRemoteId (put_file db row) rid = none := by
  unfold findByRemoteId put_file
  rw [find?_append_of_none _ _ _ h]
  simp [List.find?_cons, hne]

theorem maxDuplicateNo_put (db : SyncFiles) (row : SyncRow) (path name : String)
    (hp : row.Path = path) (hn : row.OrigFileName = name) :
    maxDuplicateNo (put_file db row) path name =
      some (match maxDuplicateNo db path name with
            | none => row.DuplicateNo
            | some m => max m row.DuplicateNo) := by
  unfold maxDuplicateNo put_file
  rw [List.filter_append, List.foldl_append]
  simp [hp, hn]

/-- The duplicate numbers that a run of fresh inserts is expected to assign,
starting from a given group maximum. -/
def expectedFrom : Option Int → Nat → List Int
  | _, 0 => []
  | none, n + 1 => 0 :: expectedFrom (some 0) n
  | some k, n + 1 => (k + 1) :: expectedFrom (some (k + 1)) n

theorem expectedFrom_some (n : Nat) : ∀ k : Int,
    expectedFrom (some k) n = (List.range n).map (fun i : ℕ => k + 1 + (i : ℤ)) := by
  induction n with
  | zero => intro k; rfl
  | succ m ih =>
      intro k
      rw [List.range_succ_eq_map]
      simp only [expectedFrom, ih, List.map_cons, List.map_map, List.cons.injEq]
      refine ⟨by push_cast; ring, ?_⟩
      apply List.map_congr_left
      intro a _
      simp only [Function.comp_apply]
      push_cast; ring

theorem expectedFrom_none (n : Nat) :
    expectedFrom none n = (List.range n).map (fun i : ℕ => (i : ℤ)) := by
  cases n with
  | zero => rfl
  | succ m =>
      rw [List.range_succ_eq_map]
      simp only [expectedFrom, expectedFrom_some, List.map_cons, List.map_map,
        List.cons.injEq]
      refine ⟨by norm_num, ?_⟩
      apply List.map_congr_left
      intro a _
      simp only [Function.comp_apply]
      push_cast; ring

theorem file_duplicate_no_fresh (db : SyncFiles) (rid path name : String)
    (h : findByRemoteId db rid = none) :
    file_duplicate_no db rid path name =
      (match maxDuplicateNo db path name with
       | some m => m + 1
       | none => 0) := by
  unfold file_duplicate_no
  rw [h]

theorem insertRun_assigns (path name : String) : ∀ (ids : List String) (db : SyncFiles),
    (∀ rid ∈ ids, findByRemoteId db rid = none) → ids.Nodup →
    (insertRun path name ids db).1 =
      expectedFrom (maxDuplicateNo db path name) ids.length := by
  intro ids
  induction ids with
  | nil => intro db _ _; cases h : maxDuplicateNo db path name <;> rfl
  | cons rid rest ih =>
      intro db hfresh hnd
      have hfr : findByRemoteId db rid = none :=
        hfresh rid (List.mem_cons_self rid rest)
      have hd := file_duplicate_no_fresh db rid path name hfr
      have hnotmem : rid ∉ rest := (List.nodup_cons.mp hnd).1
      have hndrest : rest.Nodup := (List.nodup_cons.mp hnd).2
      simp only [insertRun]
      have hfresh' : ∀ rid' ∈ rest,
          findByRemoteId (put_file db
            { blankRow with RemoteId := rid, Path := path,
                            OrigFileName := name,
                            DuplicateNo := file_duplicate_no db rid path name })
            rid' = none := by
        intro rid' hr'
        apply findByRemoteId_put_none
        · exact hfresh rid' (List.mem_cons_of_mem rid hr')
        · intro hcontra
          have hc : rid = rid' := hcontra
          exact hnotmem (hc ▸ hr')
      have hmax := maxDuplicateNo_put db
        { blankRow with RemoteId := rid, Path := path, OrigFileName := name,
                        DuplicateNo := file_duplicate_no db rid path name }
        path name rfl rfl
      rw [ih _ hfresh' hndrest, hmax]
      cases hm : maxDuplicateNo db path name with
      | none =>
          rw [hm] at hd
          simp only [hd, List.length_cons, expectedFrom]
      | some m =>
          rw [hm] at hd
          simp only [hd, List.length_cons, expectedFrom]
          have : max m (m + 1) = m + 1 := by omega
          rw [this]

/-- C4: a remote id with no existing SyncRecord gets `maxDuplicateNo + 1` when
the `(path, origFileName)` group is non-empty and `0` when it is empty; hence
resolving-then-inserting N fresh, pairwise-distinct remote ids into an empty
group assigns DuplicateNo `0, 1, ..., N-1` in order. -/
theorem gap_free_first_assignment :
    (∀ (db : SyncFiles) (rid path name : String),
      findByRemoteId db rid = none →
      file_duplicate_no db rid path name =
        (match maxDuplicateNo db path name with
         | some m => m + 1
         | none => 0)) ∧
    (∀ (path name : String) (ids : List String) (db : SyncFiles),
      (∀ rid ∈ ids, findByRemoteId db rid = none) → ids.Nodup →
      maxDuplicateNo db path name = none →
      (insertRun path name ids db).1 =
        (List.range ids.length).map (fun i : ℕ => (i : ℤ))) := by
  constructor
  · exact fun db rid path name h => file_duplicate_no_fresh db rid path name h
  · intro path name ids db hfresh hnd hempty
    rw [insertRun_assigns path name ids db hfresh hnd, hempty, expectedFrom_none]

/-- C4 witness: inserting three fresh ids into an empty table assigns 0,1,2. -/
theorem gap_free_first_assignment_witness :
    (insertRun "p" "n" ["a", "b", "c"] []).1 = [0, 1, 2] := by
  have h := gap_free_first_assignment.2 "p" "n" ["a", "b", "c"] []
    (by decide) (by decide) (by decide)
  simpa using h

/- ### C5 / C6 : the schema gate (`LocalData.check_schema_version`) -/

/-- `LocalData.VERSION = 2.3`: the supported schema version. The stored value
is a floating comparable number; modelled exactly as a rational. -/
def VERSION : ℚ := 23 / 10

/-- The on-disk sqlite store: its `Globals.Version` field and its SyncFiles
rows (the data the gate may destroy or preserve). -/
structure Store where
  version : ℚ
  records : SyncFiles
deriving DecidableEq

/-- The files `check_schema_version` touches: the store at the original path
(`gphotos.sqlite`) and the renamed-aside copy (`gphotos.sqlite.previous`). -/
structure StoreFs where
  main : Store
  previous : Option Store
deriving DecidableEq

/-- Modelled from the spec: `clean_db` runs `etc/gphotos_create.sql`, which is
not part of the sources; per the spec it "reinitializes an empty schema at
SUPPORTED version", i.e. a store at `VERSION` with no SyncRecords. -/
def emptySchema : Store := { version := VERSION, records := [] }

/-- `LocalData.check_schema_version`: compares the stored version with
`VERSION`; newer raises `ValueError` (returned as the message, store
untouched); older renames the store to `<name>.previous` and reinitializes an
empty schema; equal is a no-op. -/
def check_schema_version (s : StoreFs) : StoreFs × Option String :=
  if s.main.version > VERSION then
    (s, some "Database version is newer than gphotos-sync")
  else if s.main.version < VERSION then
    ({ main := emptySchema, previous := some s.main }, none)
  else
    (s, none)

/-- C5: for every stored version strictly greater than `VERSION`, the gate
fails with the unsupported-schema `ValueError` and the store is unchanged:
not renamed, not reinitialized, not written. -/
theorem schema_gate_newer (s : StoreFs) (h : VERSION < s.main.version) :
    check_schema_version s =
      (s, some "Database version is newer than gphotos-sync") := by
  unfold check_schema_version
  rw [if_pos h]

/-- C5 witness: a store at version 3 (> 2.3) with one record is returned
unchanged together with the error. -/
theorem schema_gate_newer_witness :
    check_schema_version { main := { version := 3, records := [blankRow] }, previous := none } =
      ({ main := { version := 3, records := [blankRow] }, previous := none },
       some "Database version is newer than gphotos-sync") :=
  schema_gate_newer _ (by norm_num [VERSION])

/-- C6: for every stored version strictly less than `VERSION`, the gate
succeeds (no error), the prior store is preserved under the renamed path, and
a fresh empty schema at the supported version sits at the original path, with
no prior SyncRecord in it. -/
theorem schema_gate_older (s : StoreFs) (h : s.main.version < VERSION) :
    (check_schema_version s).2 = none ∧
    (check_schema_version s).1.previous = some s.main ∧
    (check_schema_version s).1.main.version = VERSION ∧
    (check_schema_version s).1.main.records = [] := by
  have hng : ¬ VERSION < s.main.version := not_lt_of_gt h
  unfold check_schema_version
  rw [if_neg (by simpa using hng), if_pos h]
  exact ⟨rfl, rfl, rfl, rfl⟩

/-- C6 witness: a store at version 1 (< 2.3) holding one record is renamed
aside intact and replaced by the empty schema at version 2.3. -/
theorem schema_gate_older_witness :
    (check_schema_version { main := { version := 1, records := [blankRow] }, previous := none }).2 = none ∧
    (check_schema_version { main := { version := 1, records := [blankRow] }, previous := none }).1.previous =
      some { version := 1, records := [blankRow] } ∧
    (check_schema_version { main := { version := 1, records := [blankRow] }, previous := none }).1.main.version = VERSION ∧
    (check_schema_version { main := { version := 1, records := [blankRow] }, previous := none }).1.main.records = [] :=
  schema_gate_older _ (by norm_num [VERSION])

/- ### C7 : date window inclusivity (`LocalData.get_files_by_search`) -/

/-- All suffixes of a character list, longest first. -/
def suffixes : List Char → List (List Char)
  | [] => [[]]
  | c :: t => (c :: t) :: suffixes t

/-- SQL `LIKE` on character lists: `%` matches any run (i.e. the rest of the
pattern matches some suffix), `_` any single character, other characters match
up to ASCII case folding (sqlite's default `LIKE` is case-insensitive). -/
def likeChars : List Char → List Char → Bool
  | [], s => s.isEmpty
  | '%' :: ps, s => (suffixes s).any (fun t => likeChars ps t)
  | '_' :: ps, s =>
      (match s with
       | [] => false
       | _ :: t => likeChars ps t)
  | c :: ps, s =>
      (match s with
       | [] => false
       | d :: t => (c.toLower == d.toLower) && likeChars ps t)

/-- `value LIKE pattern` on strings. -/
def strLike (pat s : String) : Bool := likeChars pat.data s.data

/-- `LocalData.get_files_by_search(drive_id, media_type, start_date,
end_date)`: `WHERE RemoteId LIKE ? AND MediaType LIKE ?`, plus
`AND (ModifyDate >= ? OR CreateDate >= ?)` when a start date is given and
`AND ModifyDate <= ?` when an end date is given. -/
def get_files_by_search (db : SyncFiles) (drive_id media_type : String)
    (start_date end_date : Option Int) : SyncFiles :=
  db.filter fun r =>
    strLike drive_id r.RemoteId && strLike media_type (toString r.MediaType) &&
      (match start_date with
       | none => true
       | some sd => decide (sd ≤ r.ModifyDate) || decide (sd ≤ r.CreateDate)) &&
      (match end_date with
       | none => true
       | some ed => decide (r.ModifyDate ≤ ed))

/-- The spec's test record: ModifyDate 2021-01-01, CreateDate 2021-06-01. -/
def exampleRow : SyncRow :=
  { blankRow with ModifyDate := 20210101, CreateDate := 20210601 }

/-- C7: a search with a start date returns exactly the pattern-matching
records whose ModifyDate or CreateDate is on/after it; a search with an end
date returns exactly those whose ModifyDate is on/before it (CreateDate is
not consulted); in particular the spec's example record is included for
`startDate = 2021-05-01` and excluded for `endDate = 2020-12-31`. -/
theorem date_window_inclusivity :
    (∀ (db : SyncFiles) (did mt : String) (sd : Int) (r : SyncRow),
      r ∈ get_files_by_search db did mt (some sd) none ↔
        (r ∈ db ∧ strLike did r.RemoteId = true ∧
         strLike mt (toString r.MediaType) = true ∧
         (sd ≤ r.ModifyDate ∨ sd ≤ r.CreateDate))) ∧
    (∀ (db : SyncFiles) (did mt : String) (ed : Int) (r : SyncRow),
      r ∈ get_files_by_search db did mt none (some ed) ↔
        (r ∈ db ∧ strLike did r.RemoteId = true ∧
         strLike mt (toString r.MediaType) = true ∧
         r.ModifyDate ≤ ed)) ∧
    exampleRow ∈ get_files_by_search [exampleRow] "%" "%" (some 20210501) none ∧
    exampleRow ∉ get_files_by_search [exampleRow] "%" "%" none (some 20201231) := by
  refine ⟨?_, ?_, ?_, ?_⟩
  · intro db did mt sd r
    simp only [get_files_by_search, List.mem_filter, Bool.and_eq_true,
      Bool.or_eq_true, decide_eq_true_eq]
    tauto
  · intro db did mt ed r
    simp only [get_files_by_search, List.mem_filter, Bool.and_eq_true,
      decide_eq_true_eq]
    tauto
  · decide
  · decide

/- ### C8 : folder path round-trip (`DriveFolders`) -/

/-- One row of the `DriveFolders` table. Modelled from the spec: the exact
table schema lives in `etc/gphotos_create.sql` (not in the sources); per spec
§3 `FolderId` is the unique key, with `ParentId`, a folder name, and a cached
`Path` that starts out unset. -/
structure DriveFolderRow where
  FolderId : String
  ParentId : Option String
  FolderName : Option String
  Path : Option String
deriving DecidableEq

/-- The `DriveFolders` table. -/
abbrev DriveFolders := List DriveFolderRow

/-- `LocalData.put_drive_folder(drive_id, parent_id, date)`:
`INSERT OR REPLACE INTO DriveFolders(FolderId, ParentId, FolderName)
VALUES(?,?,?)` — the third argument lands in `FolderName`, and the `Path`
column of the (re)placed row is left NULL. -/
def put_drive_folder (db : DriveFolders) (drive_id parent_id date : String) :
    DriveFolders :=
  db.filter (fun r => !(r.FolderId == drive_id)) ++
    [{ FolderId := drive_id, ParentId := some parent_id,
       FolderName := some date, Path := none }]

/-- `LocalData.get_drive_folder_path(folder_id)`: `SELECT Path FROM
DriveFolders WHERE FolderId IS ?`; returns the row's `Path` (NULL ↦ none). -/
def get_drive_folder_path (db : DriveFolders) (folder_id : String) :
    Option String :=
  match db.find? (fun r => r.FolderId == folder_id) with
  | some r => r.Path
  | none => none

/-- C8 counterexample: after `put_drive_folder` on an empty table,
`get_drive_folder_path` does not return the third argument — it returns
`none`, because `put_drive_folder` writes that argument into `FolderName`,
never into `Path`. -/
theorem folder_roundtrip_counterexample :
    get_drive_folder_path (put_drive_folder [] "f1" "root" "somePath") "f1" ≠
      some "somePath" := by
  decide

/-- C8 amended: after `put_drive_folder(folderId, parentId, x)` on any table,
`get_drive_folder_path(folderId)` returns `none`: the replaced row's `Path`
is NULL (`Path` is only ever populated by `update_drive_folder_path`). -/
theorem folder_roundtrip_amended (db : DriveFolders)
    (drive_id parent_id date : String) :
    get_drive_folder_path (put_drive_folder db drive_id parent_id date)
      drive_id = none := by
  unfold get_drive_folder_path put_drive_folder
  rw [find?_append_of_none]
  · simp [List.find?_cons]
  · rw [find?_eq_none_iff]
    intro r hr
    have := (List.mem_filter.mp hr).2
    simpa using this

/- ### C9 : missing remote root (`GooglePhotosSync.get_photos_folder_id`) -/

/-- A result row returned by the remote listing: a field map, as the drive
client returns dictionary-like objects. -/
abbrev DriveFile := List (String × String)

/-- The error raised when the "Google Photos" top-level container cannot be
located (`NoGooglePhotosFolderError`). -/
inductive NoGooglePhotosFolderError where
  | mk
deriving DecidableEq

/-- `GooglePhotosSync.get_photos_folder_id`: `return query_results[0]["id"]`
inside a bare `try/except` that raises `NoGooglePhotosFolderError` — the
indexing fails when the result list is empty, the key lookup when the first
result has no `id` field. -/
def get_photos_folder_id (query_results : List DriveFile) :
    Except NoGooglePhotosFolderError String :=
  match query_results with
  | [] => .error .mk
  | f :: _ =>
      match f.lookup "id" with
      | some i => .ok i
      | none => .error .mk

/-- C9: `get_photos_folder_id` raises `NoGooglePhotosFolderError` iff the
query yields no usable result (no rows, or a first row without an id), and
otherwise returns the id of the first result. -/
theorem no_remote_root (query_results : List DriveFile) :
    (get_photos_folder_id query_results = .error .mk ↔
      (query_results.head?.bind (fun f => f.lookup "id")) = none) ∧
    (∀ (f : DriveFile) (i : String), query_results.head? = some f →
      f.lookup "id" = some i →
      get_photos_folder_id query_results = .ok i) := by
  constructor
  · cases query_results with
    | nil => simp [get_photos_folder_id]
    | cons f rest =>
        cases h : f.lookup "id" with
        | none => simp [get_photos_folder_id, h]
        | some i => simp [get_photos_folder_id, h]
  · intro f i hh hl
    cases query_results with
    | nil => simp at hh
    | cons g rest =>
        have hg : g = f := by simpa using hh
        subst hg
        simp [get_photos_folder_id, hl]

/-- C9 witness: a single usable result yields its id. -/
theorem no_remote_root_witness :
    get_photos_folder_id [[("id", "root123")]] = .ok "root123" :=
  (no_remote_root [[("id", "root123")]]).2 [("id", "root123")] "root123"
    (by decide) (by decide)

/- ### C1 / C2 : the download loop (`GooglePhotosSync.download_media`) -/

/-- Lookup in a string-keyed association map (first binding wins). -/
def alistGet {β : Type} (l : List (String × β)) (k : String) : Option β :=
  match l.find? (fun p => p.1 == k) with
  | some p => some p.2
  | none => none

/-- Update/insert in a string-keyed association map. -/
def alistSet {β : Type} (l : List (String × β)) (k : String) (v : β) :
    List (String × β) :=
  (k, v) :: l.filter (fun p => !(p.1 == k))

/-- Remove a key from a string-keyed association map. -/
def alistErase {β : Type} (l : List (String × β)) (k : String) :
    List (String × β) :=
  l.filter (fun p => !(p.1 == k))

/-- The local filesystem: file path ↦ number of bytes on disk. -/
abbrev FileSys := List (String × Nat)

/-- A pickledb dictionary value (`dadd` pairs). -/
abbrev Dict := List (String × String)

/-- The pickledb key-value store used by `GooglePhotosSync`. -/
abbrev PickleDb := List (String × Dict)

/-- `os.rename(src, dst)`, as used after a completed transfer. -/
def fsRename (fs : FileSys) (src dst : String) : FileSys :=
  match alistGet fs src with
  | some b => alistSet (alistErase fs src) dst b
  | none => fs

/-- `pickledb.dcreate(key)`: store a fresh empty dict at `key`. -/
def dcreate (db : PickleDb) (k : String) : PickleDb := alistSet db k []

/-- `pickledb.dadd(key, (field, value))`: add a pair to the dict at `key`. -/
def dadd (db : PickleDb) (k f v : String) : PickleDb :=
  match alistGet db k with
  | some d => alistSet db k (alistSet d f v)
  | none => db

/-- The outcome the transfer layer produces for one download attempt: either
the whole file (so many bytes), or an exception after writing so many bytes
into the temporary file. -/
inductive Attempt where
  | success (bytes : Nat)
  | failure (pBytes : Nat)
deriving DecidableEq

/-- Whether an attempt outcome is a transfer failure. -/
def Attempt.isFailure : Attempt → Bool
  | .failure _ => true
  | .success _ => false

/-- Modelled from the spec: the per-item error the spec says is surfaced when
the retry bound is exceeded. The sources define no such error and raise
nothing after the retry loop. -/
inductive TransferFailedError where
  | mk
deriving DecidableEq

/-- The `for retry in range(10)` loop body of `download_media`: each attempt
opens the temporary file with `'bw'` (truncating it) and streams into it; an
exception prints and continues; a completed transfer is renamed onto the
target name followed by `break`. Returns the filesystem, whether a transfer
completed, and how many attempts were consumed. -/
def downloadLoop (temp target : String) :
    List Attempt → FileSys → FileSys × Bool × Nat
  | [], fs => (fs, false, 0)
  | .success b :: _, fs =>
      (fsRename (alistSet fs temp b) temp target, true, 1)
  | .failure p :: rest, fs =>
      let r := downloadLoop temp target rest (alistSet fs temp p)
      (r.1, r.2.1, r.2.2 + 1)

/-- The index-write block at the end of `download_media` (lines 185–191):
`dcreate`/`dadd` the forward record under the remote id (filename,
description, checksum), then `dcreate`/`dadd` the reverse record under the
target filename. -/
def index_writes (db : PickleDb) (mid desc chk tgt : String) : PickleDb :=
  let db1 := dadd (dcreate db mid) mid "filename" tgt
  let db2 := dadd db1 mid "description" desc
  let db3 := dadd db2 mid "checksum" chk
  dadd (dcreate db3 tgt) tgt "id" mid

/-- The remote media item fields `download_media` reads. -/
structure Media where
  id : String
  filename : String
  description : String
  checksum : String
deriving DecidableEq

/-- `GooglePhotosSync.download_media(media, path)` with `index_only` as the
first argument: unless `index_only` is set, run the retry loop (the transfer
layer's outcome for attempt `i` is `attempt i`); afterwards —
unconditionally, whether or not any attempt succeeded — write the forward
index record under `media.id` and the reverse record under the target
filename, and return the target filename. Every exception inside the loop is
caught by the bare `except`, and no statement after the loop raises, so the
function always returns `.ok`; the `Except` result type records where a
`TransferFailedError` would have to appear. -/
def download_media (index_only : Bool) (media : Media) (path : String)
    (attempt : Nat → Attempt) (fs : FileSys) (db : PickleDb) :
    Except TransferFailedError (FileSys × PickleDb × String) :=
  let target_filename := path ++ "/" ++ media.filename
  let temp_filename := path ++ "/" ++ ".temp-gphotos"
  let fs1 := if index_only then fs
    else (downloadLoop temp_filename target_filename
            ((List.range 10).map attempt) fs).1
  .ok (fs1, index_writes db media.id media.description media.checksum
              target_filename,
       target_filename)

/- ### association-map lemmas -/

theorem alistGet_set_self {β : Type} (l : List (String × β)) (k : String) (v : β) :
    alistGet (alistSet l k v) k = some v := by
  simp [alistGet, alistSet, List.find?_cons]

theorem find?_fst_filter_ne {β : Type} (l : List (String × β)) (k k' : String)
    (h : k' ≠ k) :
    (l.filter (fun p => !(p.1 == k))).find? (fun p => p.1 == k') =
      l.find? (fun p => p.1 == k') := by
  induction l with
  | nil => rfl
  | cons e rest ih =>
      cases hek : (e.1 == k) with
      | true =>
          have he : e.1 = k := by simpa using hek
          have hne : (e.1 == k') = false := by
            rw [beq_eq_false_iff_ne, he]
            exact fun hc => h hc.symm
          simp [List.filter_cons, List.find?_cons, hek, hne, ih]
      | false =>
          cases hk : (e.1 == k') with
          | true => simp [List.filter_cons, List.find?_cons, hek, hk]
          | false => simp [List.filter_cons, List.find?_cons, hek, hk, ih]

theorem alistGet_set_ne {β : Type} (l : List (String × β)) (k k' : String)
    (v : β) (h : k' ≠ k) :
    alistGet (alistSet l k v) k' = alistGet l k' := by
  unfold alistGet alistSet
  rw [List.find?_cons]
  have hk : (k == k') = false := by
    simp only [beq_eq_false_iff_ne, ne_eq]
    exact fun hc => h hc.symm
  simp only [hk]
  rw [find?_fst_filter_ne l k k' h]

/- ### downloadLoop lemmas -/

theorem downloadLoop_allfail (temp target : String) :
    ∀ (l : List Attempt) (fs : FileSys),
      (∀ a ∈ l, a.isFailure = true) →
      (downloadLoop temp target l fs).2.1 = false ∧
      (downloadLoop temp target l fs).2.2 = l.length ∧
      (target ≠ temp →
        alistGet (downloadLoop temp target l fs).1 target = alistGet fs target) := by
  intro l
  induction l with
  | nil => intro fs _; exact ⟨rfl, rfl, fun _ => rfl⟩
  | cons a rest ih =>
      intro fs hf
      cases a with
      | success b =>
          have := hf _ (List.mem_cons_self _ _)
          simp [Attempt.isFailure] at this
      | failure p =>
          have hrest := ih (alistSet fs temp p)
            (fun a ha => hf a (List.mem_cons_of_mem _ ha))
          simp only [downloadLoop, List.length_cons]
          refine ⟨hrest.1, by rw [hrest.2.1], ?_⟩
          intro hneq
          rw [hrest.2.2 hneq, alistGet_set_ne fs temp target p hneq]

theorem downloadLoop_count_le (temp target : String) :
    ∀ (l : List Attempt) (fs : FileSys),
      (downloadLoop temp target l fs).2.2 ≤ l.length := by
  intro l
  induction l with
  | nil => intro fs; simp [downloadLoop]
  | cons a rest ih =>
      intro fs
      cases a with
      | success b => simp [downloadLoop]
      | failure p =>
          simp only [downloadLoop, List.length_cons]
          exact Nat.succ_le_succ (ih _)

theorem append_left_ne (p a b : String) (h : a ≠ b) : p ++ a ≠ p ++ b := by
  intro hc
  apply h
  have hdata : (p ++ a).data = (p ++ b).data := congrArg String.data hc
  rw [String.data_append, String.data_append] at hdata
  have hab : a.data = b.data := List.append_cancel_left hdata
  cases a
  cases b
  exact congrArg String.mk (by simpa using hab)

theorem index_writes_forward (db : PickleDb) (mid desc chk tgt : String)
    (h : mid ≠ tgt) :
    (alistGet (index_writes db mid desc chk tgt) mid).map
      (fun d => alistGet d "filename") = some (some tgt) := by
  unfold index_writes
  simp only [dadd, dcreate, alistGet_set_self]
  rw [alistGet_set_ne _ _ _ _ h, alistGet_set_ne _ _ _ _ h, alistGet_set_self]
  simp only [Option.map_some']
  rw [alistGet_set_ne _ _ _ _ (by decide : ("filename" : String) ≠ "checksum"),
    alistGet_set_ne _ _ _ _ (by decide : ("filename" : String) ≠ "description"),
    alistGet_set_self]

theorem index_writes_reverse (db : PickleDb) (mid desc chk tgt : String) :
    (alistGet (index_writes db mid desc chk tgt) tgt).map
      (fun d => alistGet d "id") = some (some mid) := by
  unfold index_writes
  simp only [dadd, dcreate, alistGet_set_self]
  simp only [Option.map_some']
  rw [alistGet_set_self]

/- ### C1 : download atomicity -/

/-- C1 counterexample: with every attempt failing (so no rename ever
happens), `download_media` still writes both index records: the final-named
file is absent, yet the forward record under the remote id and the reverse
record under the target filename both exist — refuting "no index record has
been written for that item". -/
theorem download_atomicity_counterexample :
    (download_media false ⟨"id1", "f.jpg", "d", "c"⟩ "p"
        (fun _ => Attempt.failure 7) [] []).toOption.map
        (fun out =>
          ((alistGet out.1 ("p" ++ "/" ++ "f.jpg")).isSome,
           (alistGet out.2.1 "id1").isSome,
           (alistGet out.2.1 ("p" ++ "/" ++ "f.jpg")).isSome))
      = some (false, true, true) := by
  decide

/-- C1 amended: if all retry attempts fail (no rename occurs) and the target
name is initially absent, then after `download_media` (with `index_only`
disabled) no file exists under the final target name — but both index
records, forward (remote id → metadata with the target filename) and reverse
(target filename → remote id), have nevertheless been written: the index
write is unconditional, not gated on a successful rename. -/
theorem download_atomicity (media : Media) (path : String)
    (attempt : Nat → Attempt) (fs : FileSys) (db : PickleDb)
    (hfail : ∀ i, i < 10 → (attempt i).isFailure = true)
    (hname : media.filename ≠ ".temp-gphotos")
    (hclean : alistGet fs (path ++ "/" ++ media.filename) = none)
    (hid : media.id ≠ path ++ "/" ++ media.filename) :
    (download_media false media path attempt fs db).toOption.map
        (fun out =>
          (alistGet out.1 (path ++ "/" ++ media.filename),
           (alistGet out.2.1 media.id).map (fun d => alistGet d "filename"),
           (alistGet out.2.1 (path ++ "/" ++ media.filename)).map
             (fun d => alistGet d "id")))
      = some (none, some (some (path ++ "/" ++ media.filename)),
              some (some media.id)) := by
  have hne : path ++ "/" ++ media.filename ≠ path ++ "/" ++ ".temp-gphotos" :=
    append_left_ne (path ++ "/") media.filename ".temp-gphotos" hname
  have hl : ∀ a ∈ (List.range 10).map attempt, a.isFailure = true := by
    intro a ha
    rcases List.mem_map.mp ha with ⟨i, hi, rfl⟩
    exact hfail i (List.mem_range.mp hi)
  have hloop := downloadLoop_allfail (path ++ "/" ++ ".temp-gphotos")
    (path ++ "/" ++ media.filename) ((List.range 10).map attempt) fs hl
  have hfs : alistGet (downloadLoop (path ++ "/" ++ ".temp-gphotos")
      (path ++ "/" ++ media.filename) ((List.range 10).map attempt) fs).1
      (path ++ "/" ++ media.filename) = none :=
    (hloop.2.2 hne).trans hclean
  simp only [download_media, Except.toOption, Bool.false_eq_true, if_false,
    Option.map_some', Option.some.injEq, Prod.mk.injEq]
  exact ⟨hfs, index_writes_forward db media.id media.description
    media.checksum (path ++ "/" ++ media.filename) hid,
    index_writes_reverse db media.id media.description media.checksum
      (path ++ "/" ++ media.filename)⟩

/-- C1 witness for the amended claim at a concrete all-failures run. -/
theorem download_atomicity_witness :
    (download_media false ⟨"id1", "f.jpg", "d", "c"⟩ "p"
        (fun _ => Attempt.failure 7) [] []).toOption.map
        (fun out =>
          (alistGet out.1 ("p" ++ "/" ++ "f.jpg"),
           (alistGet out.2.1 "id1").map (fun d => alistGet d "filename"),
           (alistGet out.2.1 ("p" ++ "/" ++ "f.jpg")).map
             (fun d => alistGet d "id")))
      = some (none, some (some ("p" ++ "/" ++ "f.jpg")), some (some "id1")) :=
  download_atomicity ⟨"id1", "f.jpg", "d", "c"⟩ "p" (fun _ => Attempt.failure 7)
    [] [] (by decide) (by decide) (by decide) (by decide)

/- ### C2 : retry bound and error surfacing -/

/-- C2 counterexample: when every one of the 10 attempts fails,
`download_media` does not surface a `TransferFailedError` — it returns
normally. -/
theorem retry_bound_counterexample :
    (download_media false ⟨"id1", "f.jpg", "d", "c"⟩ "p"
        (fun _ => Attempt.failure 7) [] []).toOption.isSome = true := by
  decide

/-- C2 amended: the transfer is attempted at most 10 times (the temporary
file being truncated and rewritten on each attempt); if all 10 attempts fail,
exactly 10 attempts are consumed, no transfer completes, and `download_media`
returns normally — no `TransferFailedError` (or any error) is surfaced; the
index writes still happen (see the download-atomicity theorem). -/
theorem retry_bound (media : Media) (path : String) (attempt : Nat → Attempt)
    (fs : FileSys) (db : PickleDb)
    (hfail : ∀ i, i < 10 → (attempt i).isFailure = true) :
    (downloadLoop (path ++ "/" ++ ".temp-gphotos")
        (path ++ "/" ++ media.filename) ((List.range 10).map attempt) fs).2.2
      = 10 ∧
    (downloadLoop (path ++ "/" ++ ".temp-gphotos")
        (path ++ "/" ++ media.filename) ((List.range 10).map attempt) fs).2.1
      = false ∧
    (download_media false media path attempt fs db).toOption.isSome = true ∧
    (∀ (temp target : String) (l : List Attempt) (fs0 : FileSys),
      (downloadLoop temp target l fs0).2.2 ≤ l.length) := by
  have hl : ∀ a ∈ (List.range 10).map attempt, a.isFailure = true := by
    intro a ha
    rcases List.mem_map.mp ha with ⟨i, hi, rfl⟩
    exact hfail i (List.mem_range.mp hi)
  have hloop := downloadLoop_allfail (path ++ "/" ++ ".temp-gphotos")
    (path ++ "/" ++ media.filename) ((List.range 10).map attempt) fs hl
  refine ⟨by rw [hloop.2.1]; simp, hloop.1, rfl, ?_⟩
  exact fun temp target l fs0 => downloadLoop_count_le temp target l fs0

/-- C2 witness for the amended claim at a concrete all-failures run. -/
theorem retry_bound_witness :
    (downloadLoop ("p" ++ "/" ++ ".temp-gphotos") ("p" ++ "/" ++ "f.jpg")
        ((List.range 10).map (fun _ => Attempt.failure 7)) []).2.2 = 10 ∧
    (downloadLoop ("p" ++ "/" ++ ".temp-gphotos") ("p" ++ "/" ++ "f.jpg")
        ((List.range 10).map (fun _ => Attempt.failure 7)) []).2.1 = false ∧
    (download_media false ⟨"id1", "f.jpg", "d", "c"⟩ "p"
        (fun _ => Attempt.failure 7) [] []).toOption.isSome = true ∧
    (∀ (temp target : String) (l : List Attempt) (fs0 : FileSys),
      (downloadLoop temp target l fs0).2.2 ≤ l.length) :=
  retry_bound ⟨"id1", "f.jpg", "d", "c"⟩ "p" (fun _ => Attempt.failure 7) [] []
    (by decide)

/- ### C10 : termination of the recursive existence checks -/

/-- `GooglePhotosSync.is_indexed(path, media)`, fuel-indexed. The local
filename probed at duplicate number `n` is `fname n` (modelled from the spec:
`GooglePhotosMedia.filename` is not in the sources; per the spec the duplicate
ordinal is embedded in the name, so `fname` is injective). A step looks the
filename up in the pickledb: a missing or empty (falsy) record returns
`false`; a record whose `id` matches returns `true`; otherwise the duplicate
number is bumped and the check recurses. `none` means the fuel ran out before
the recursion returned; `.error ()` is the `KeyError` a record without an
`id` field would raise. -/
def is_indexed (db : PickleDb) (fname : Nat → String) (mediaId : String) :
    Nat → Nat → Option (Except Unit Bool)
  | _, 0 => none
  | n, fuel + 1 =>
      match alistGet db (fname n) with
      | none => some (.ok false)
      | some [] => some (.ok false)
      | some (p :: ps) =>
          match alistGet (p :: ps) "id" with
          | none => some (.error ())
          | some rid =>
              if rid = mediaId then some (.ok true)
              else is_indexed db fname mediaId (n + 1) fuel

/-- `GooglePhotosSync.has_local_version(path, media)`, fuel-indexed, same
conventions as `is_indexed`. A step checks whether a file exists at the
probed name: if not, return `false`; if so, return `true` when the record
stored under the media id is truthy and names this file, and otherwise bump
the duplicate number and recurse. -/
def has_local_version (fs : FileSys) (db : PickleDb) (fname : Nat → String)
    (mediaId : String) : Nat → Nat → Option (Except Unit Bool)
  | _, 0 => none
  | n, fuel + 1 =>
      if (alistGet fs (fname n)).isSome then
        match alistGet db mediaId with
        | none => has_local_version fs db fname mediaId (n + 1) fuel
        | some [] => has_local_version fs db fname mediaId (n + 1) fuel
        | some (p :: ps) =>
            match alistGet (p :: ps) "filename" with
            | none => some (.error ())
            | some f =>
                if f = fname n then some (.ok true)
                else has_local_version fs db fname mediaId (n + 1) fuel
      else some (.ok false)

theorem alistGet_mem_keys {β : Type} (l : List (String × β)) (k : String)
    (v : β) (h : alistGet l k = some v) : k ∈ l.map Prod.fst := by
  unfold alistGet at h
  cases hf : l.find? (fun p => p.1 == k) with
  | none => rw [hf] at h; cases h
  | some p =>
      have hp := List.find?_some hf
      have hmem := List.mem_of_find?_eq_some hf
      have hk : p.1 = k := by simpa using hp
      exact hk ▸ List.mem_map_of_mem Prod.fst hmem

theorem distinct_probe_bound (keys : List String) (fname : Nat → String)
    (hinj : Function.Injective fname) (n fuel : Nat)
    (hall : ∀ i < fuel, fname (n + i) ∈ keys) : fuel ≤ keys.length := by
  have hnd : ((List.range fuel).map (fun i => fname (n + i))).Nodup := by
    apply List.Nodup.map
    · intro a b hab
      have := hinj hab
      omega
    · exact List.nodup_range fuel
  have hsub : ∀ x ∈ (List.range fuel).map (fun i => fname (n + i)), x ∈ keys := by
    intro x hx
    rcases List.mem_map.mp hx with ⟨i, hi, rfl⟩
    exact hall i (List.mem_range.mp hi)
  calc fuel = ((List.range fuel).map (fun i => fname (n + i))).length := by simp
    _ = ((List.range fuel).map (fun i => fname (n + i))).toFinset.card :=
        (List.toFinset_card_of_nodup hnd).symm
    _ ≤ keys.toFinset.card :=
        Finset.card_le_card
          (fun x hx => List.mem_toFinset.mpr (hsub x (List.mem_toFinset.mp hx)))
    _ ≤ keys.length := keys.toFinset_card_le

theorem is_indexed_none_mem (db : PickleDb) (fname : Nat → String)
    (mediaId : String) : ∀ (fuel n : Nat),
    is_indexed db fname mediaId n fuel = none →
    ∀ i < fuel, fname (n + i) ∈ db.map Prod.fst := by
  intro fuel
  induction fuel with
  | zero => intro n _ i hi; omega
  | succ f ih =>
      intro n hnone i hi
      rw [is_indexed] at hnone
      cases hdb : alistGet db (fname n) with
      | none => simp only [hdb] at hnone; exact Option.noConfusion hnone
      | some d =>
          cases d with
          | nil => simp only [hdb] at hnone; exact Option.noConfusion hnone
          | cons p ps =>
              simp only [hdb] at hnone
              cases hid : alistGet (p :: ps) "id" with
              | none =>
                  simp only [hid] at hnone
                  exact Option.noConfusion hnone
              | some rid =>
                  simp only [hid] at hnone
                  by_cases hr : rid = mediaId
                  · rw [if_pos hr] at hnone; exact Option.noConfusion hnone
                  · rw [if_neg hr] at hnone
                    cases i with
                    | zero =>
                        exact Nat.add_zero n ▸
                          alistGet_mem_keys db (fname n) (p :: ps) hdb
                    | succ j =>
                        have hmem := ih (n + 1) hnone j (by omega)
                        have harith : n + 1 + j = n + (j + 1) := by omega
                        rw [harith] at hmem
                        exact hmem

theorem has_local_version_none_mem (fs : FileSys) (db : PickleDb)
    (fname : Nat → String) (mediaId : String) : ∀ (fuel n : Nat),
    has_local_version fs db fname mediaId n fuel = none →
    ∀ i < fuel, fname (n + i) ∈ fs.map Prod.fst := by
  intro fuel
  induction fuel with
  | zero => intro n _ i hi; omega
  | succ f ih =>
      intro n hnone i hi
      rw [has_local_version] at hnone
      cases hfs : alistGet fs (fname n) with
      | none => rw [hfs] at hnone; simp at hnone
      | some b =>
          rw [hfs] at hnone
          simp only [Option.isSome_some, if_true] at hnone
          have hmem0 : fname n ∈ fs.map Prod.fst :=
            alistGet_mem_keys fs (fname n) b hfs
          have hrec : has_local_version fs db fname mediaId (n + 1) f = none := by
            cases hdb : alistGet db mediaId with
            | none => simp only [hdb] at hnone; exact hnone
            | some d =>
                cases d with
                | nil => simp only [hdb] at hnone; exact hnone
                | cons p ps =>
                    simp only [hdb] at hnone
                    cases hfn : alistGet (p :: ps) "filename" with
                    | none =>
                        simp only [hfn] at hnone
                        exact Option.noConfusion hnone
                    | some g =>
                        simp only [hfn] at hnone
                        by_cases hg : g = fname n
                        · rw [if_pos hg] at hnone
                          exact Option.noConfusion hnone
                        · rw [if_neg hg] at hnone; exact hnone
          cases i with
          | zero => exact Nat.add_zero n ▸ hmem0
          | succ j =>
              have hmem := ih (n + 1) hrec j (by omega)
              have harith : n + 1 + j = n + (j + 1) := by omega
              rw [harith] at hmem
              exact hmem

/-- C10: with an injective duplicate-number-to-filename map (the ordinal is
embedded in the name), both recursive existence checks terminate on every
finite index and filesystem state: each recursive call probes a fresh
filename and only finitely many filenames have an index entry
(`is_indexed`) or an on-disk file (`has_local_version`), so fuel one larger
than the respective store suffices — the checks never exhaust it. -/
theorem existence_checks_terminate (db : PickleDb) (fs : FileSys)
    (fname : Nat → String) (mediaId : String) (n : Nat)
    (hinj : Function.Injective fname) :
    is_indexed db fname mediaId n (db.length + 1) ≠ none ∧
    has_local_version fs db fname mediaId n (fs.length + 1) ≠ none := by
  constructor
  · intro hnone
    have hall := is_indexed_none_mem db fname mediaId (db.length + 1) n hnone
    have hb := distinct_probe_bound (db.map Prod.fst) fname hinj n
      (db.length + 1) hall
    simp at hb
  · intro hnone
    have hall := has_local_version_none_mem fs db fname mediaId
      (fs.length + 1) n hnone
    have hb := distinct_probe_bound (fs.map Prod.fst) fname hinj n
      (fs.length + 1) hall
    simp at hb

/-- C10 witness: concrete one-entry stores with the filename map
`n ↦ "a" * n` (injective by length). -/
theorem existence_checks_terminate_witness :
    is_indexed [("a", [("id", "x")])]
        (fun n => String.mk (List.replicate n 'a')) "m" 0 2 ≠ none ∧
    has_local_version [("f", 1)] [("m", [("filename", "g")])]
        (fun n => String.mk (List.replicate n 'a')) "m" 0 2 ≠ none :=
  existence_checks_terminate [("a", [("id", "x")])] [("f", 1)]
    (fun n => String.mk (List.replicate n 'a')) "m" 0
    (by
      intro a b h
      have hl := congrArg String.length h
      simpa using hl)

end GphotosSync
